import Mathlib

/-!
# DDDigi edm4hep output: collection registry, stream life cycle, conversion dispatch

A shallow embedding of `DDDigi/io/DigiEdm4hepOutput.cpp`.

* Collection objects created with `new` live in a heap (`internals_t.heap`); a pointer
  is the index of the object in that heap, so two pointers denote the same object
  exactly when they are equal.
* The scalar type of the resolution properties (`F`), the energy deposit payload (`D`)
  and the particle payload (`P`) are declared in headers outside the translated file and
  are parameters of the development.
* An exception thrown through `except` is the outcome `Result.raised`, which also
  records the state at the throw.  Logging calls (`info`, `debug`) have no effect on
  the state and are left out, as are the counters `num_events` and `event_count`,
  which only feed a log line.
-/

namespace dd4hep.digi

/-! ## Outcomes -/

/-- Abnormal terminations.  The first four are the `except` calls of the file, named
after their message; the last two are the undefined behaviours the file can run into. -/
inductive Fault where
  /-- `except("+++ Failed to write output file. [Stream is not open]")` in `commit`. -/
  | stream_not_open
  /-- `except("Error")` in `get_collection`: no collection of that name. -/
  | collection_not_found
  /-- `except("Error: Unknown energy deposit type: %d", int(cont.data_type))`. -/
  | unknown_deposit_type (code : Int)
  /-- `except("Request to handle unknown data type: %s", ...)` in `execute`. -/
  | unknown_data_type (type_name : String)
  /-- A member call through a null pointer (no exception is thrown by the code). -/
  | null_dereference
  /-- Use of a collection through a `static_cast` to a type it does not have. -/
  | bad_cast
  deriving DecidableEq, Repr

/-- Outcome of a call that may throw: the state it returns with, or the fault together
with the state at the point of the throw. -/
inductive Result (σ : Type) where
  | ok (s : σ)
  | raised (e : Fault) (s : σ)
  deriving DecidableEq, Repr

/-- State in which the call ended, normally or not. -/
def Result.state {σ : Type} : Result σ → σ
  | .ok s => s
  | .raised _ s => s

/-! ## Data model -/

/-- Cell identifier keying an energy deposit. -/
abbrev CellID := Nat

/-- Values of `SegmentEntry::data_type` that `convert_deposits` distinguishes; every
other value of the enumeration is `other` with its integer code. -/
inductive data_type_t where
  | TRACKER_HITS
  | CALORIMETER_HITS
  | other (code : Int)
  deriving DecidableEq, Repr

/-- Entry of an `edm4hep::EventHeaderCollection`; this file never creates one. -/
structure EventHeader where
  eventNumber : Int
  runNumber : Int
  deriving DecidableEq, Repr

/-- Entry of an `edm4hep::MCParticleCollection`: the image of one input particle. -/
structure MCParticle (P : Type) where
  source : Nat × P
  deriving DecidableEq, Repr

/-- Entry of an `edm4hep::TrackerHitCollection`: the image of one deposit, with the
covariance matrix and the hit type handed to the converter. -/
structure TrackerHit (F D : Type) where
  source : CellID × D
  covMatrix : List F
  type : Int
  deriving DecidableEq, Repr

/-- Entry of an `edm4hep::CalorimeterHitCollection`: the image of one deposit with the
hit type handed to the converter. -/
structure CalorimeterHit (D : Type) where
  source : CellID × D
  type : Int
  deriving DecidableEq, Repr

/-- A `podio::CollectionBase` object: one of the four collection types the file
creates, with its entries in order. -/
inductive Collection (F D P : Type) where
  | EventHeaderCollection (entries : List EventHeader)
  | MCParticleCollection (entries : List (MCParticle P))
  | TrackerHitCollection (entries : List (TrackerHit F D))
  | CalorimeterHitCollection (entries : List (CalorimeterHit D))
  deriving DecidableEq, Repr

/-- `coll->size()`. -/
def Collection.size {F D P : Type} : Collection F D P → Nat
  | .EventHeaderCollection es => es.length
  | .MCParticleCollection es => es.length
  | .TrackerHitCollection es => es.length
  | .CalorimeterHitCollection es => es.length

/-- `coll->clear()`: the entries are removed, the object and its type stay. -/
def Collection.clear {F D P : Type} : Collection F D P → Collection F D P
  | .EventHeaderCollection _ => .EventHeaderCollection []
  | .MCParticleCollection _ => .MCParticleCollection []
  | .TrackerHitCollection _ => .TrackerHitCollection []
  | .CalorimeterHitCollection _ => .CalorimeterHitCollection []

/-- Input record `ParticleMapping`: `data` is the iteration sequence of the map. -/
structure ParticleMapping (P : Type) where
  name : String
  key : Nat
  data : List (Nat × P)
  deriving DecidableEq, Repr

/-- Input record `DepositMapping`: `data` is the iteration sequence of the keyed
container. -/
structure DepositMapping (D : Type) where
  name : String
  key : Nat
  data_type : data_type_t
  data : List (CellID × D)
  deriving DecidableEq, Repr

/-- Input record `DepositVector`: `data` is the sequence of deposits. -/
structure DepositVector (D : Type) where
  name : String
  key : Nat
  data_type : data_type_t
  data : List (CellID × D)
  deriving DecidableEq, Repr

/-- Input record `DepositsHistory`. -/
structure DepositsHistory where
  name : String
  key : Nat
  deriving DecidableEq, Repr

/-- The input of a work item as `work.get_input<T>()` sees it: one of the four record
types, or a value of some other type, known by its type name. -/
inductive work_t (D P : Type) where
  | particle_mapping (p : ParticleMapping P)
  | deposit_mapping (m : DepositMapping D)
  | deposit_vector (v : DepositVector D)
  | deposits_history (h : DepositsHistory)
  | unknown (input_type_name : String)
  deriving DecidableEq, Repr

/-- The filter `predicate_t`, evaluated on one candidate deposit. -/
abbrev predicate_t (D : Type) := CellID × D → Bool

/-- Properties of `DigiEdm4hepOutputProcessor`. -/
structure DigiEdm4hepOutputProcessor (F : Type) where
  m_pointResoutionRPhi : F
  m_pointResoutionZ : F
  m_hit_type : Int
  deriving DecidableEq, Repr

/-- Properties of the parent action `DigiEdm4hepOutput` that the file reads:
the container name to container type list `m_containers`, in iteration order. -/
structure DigiEdm4hepOutput where
  m_containers : List (String × String)
  deriving DecidableEq, Repr

/-! ## The persistence collaborator (podio) -/

/-- Modelled from the spec: the `podio::ROOTWriter` of the persistence collaborator,
which is outside the repository.  It is bound to a file name, holds the names
registered for writing, the event records written so far (each the contents of the
registered collections at the time of the write) and whether it was finalized. -/
structure ROOTWriter (F D P : Type) where
  filename : String
  collectionsToWrite : List String
  events : List (List (String × Collection F D P))
  finished : Bool
  deriving DecidableEq, Repr

/-- Modelled from the spec: `podio::EventStore::registerCollection`, the store keeps
the pair in registration order. -/
def EventStore.registerCollection (name : String) (coll : Nat)
    (store : List (String × Nat)) : List (String × Nat) :=
  store ++ [(name, coll)]

/-- Modelled from the spec: `podio::EventStore::get`, the first collection
registered under the name. -/
def EventStore.get (name : String) : List (String × Nat) → Option Nat
  | [] => none
  | (n, c) :: rest => if n = name then some c else EventStore.get name rest

/-- Modelled from the spec: `podio::EventStore::clearCollections`, every registered
collection object is cleared in place. -/
def EventStore.clearCollections {F D P : Type} (store : List (String × Nat))
    (heap : List (Collection F D P)) : List (Collection F D P) :=
  store.foldl
    (fun h nc => match h[nc.2]? with
      | some c => h.set nc.2 c.clear
      | none => h)
    heap

/-- Modelled from the spec: construction of a `podio::ROOTWriter` on a file name. -/
def ROOTWriter.create {F D P : Type} (fname : String) : ROOTWriter F D P :=
  { filename := fname, collectionsToWrite := [], events := [], finished := false }

/-- Modelled from the spec: `podio::ROOTWriter::registerForWrite`. -/
def ROOTWriter.registerForWrite {F D P : Type} (name : String) (w : ROOTWriter F D P) :
    ROOTWriter F D P :=
  { w with collectionsToWrite := w.collectionsToWrite ++ [name] }

/-- Modelled from the spec: `podio::ROOTWriter::writeEvent`, one record with the
current contents of every collection registered for writing, looked up in the store. -/
def ROOTWriter.writeEvent {F D P : Type} (store : List (String × Nat))
    (heap : List (Collection F D P)) (w : ROOTWriter F D P) : ROOTWriter F D P :=
  { w with events := w.events ++
      [w.collectionsToWrite.filterMap (fun n =>
        match EventStore.get n store with
        | some c => (heap[c]?).map (fun obj => (n, obj))
        | none => none)] }

/-- Modelled from the spec: `podio::ROOTWriter::finish`. -/
def ROOTWriter.finish {F D P : Type} (w : ROOTWriter F D P) : ROOTWriter F D P :=
  { w with finished := true }

/-! ## `std::map<std::string, podio::CollectionBase*>` -/

/-- `std::map::find`: the pointer stored under the key. -/
def map_find (name : String) : List (String × Nat) → Option Nat
  | [] => none
  | (n, c) :: rest => if n = name then some c else map_find name rest

/-- Lexicographic comparison of two character sequences by character code. -/
def chars_less : List Char → List Char → Bool
  | [], [] => false
  | [], _ :: _ => true
  | _ :: _, [] => false
  | a :: as, b :: bs =>
    if a.toNat < b.toNat then true
    else if b.toNat < a.toNat then false
    else chars_less as bs

/-- The key order of the map, `std::less<std::string>`. -/
def string_less (a b : String) : Bool :=
  chars_less a.data b.data

/-- Insertion of a key that is not present, at its place in key order. -/
def map_insert (name : String) (coll : Nat) : List (String × Nat) → List (String × Nat)
  | [] => [(name, coll)]
  | (n, c) :: rest =>
    if string_less name n then (name, coll) :: (n, c) :: rest
    else (n, c) :: map_insert name coll rest

/-- `std::map::emplace`: nothing happens when the key is present. -/
def map_emplace (name : String) (coll : Nat) (m : List (String × Nat)) :
    List (String × Nat) :=
  match map_find name m with
  | some _ => m
  | none => map_insert name coll m

/-! ## `DigiEdm4hepOutput::internals_t` -/

/-- The members of `internals_t` that carry state, the heap of the collection objects
it allocated, and the writers that `m_file.reset()` has destroyed (`released`). -/
structure internals_t (F D P : Type) where
  heap : List (Collection F D P)
  m_store : List (String × Nat)
  m_file : Option (ROOTWriter F D P)
  m_header : Option Nat
  m_particles : Option Nat
  m_collections : List (String × Nat)
  released : List (ROOTWriter F D P)
  deriving DecidableEq, Repr

section code

variable {F D P : Type}

/-- Constructor: an empty store, no writer, null `m_header` and `m_particles`. -/
def internals_t.create : internals_t F D P :=
  { heap := [], m_store := [], m_file := none, m_header := none, m_particles := none,
    m_collections := [], released := [] }

/-- The expression `new T()`: a fresh object, whose pointer is returned. -/
def internals_t.alloc (obj : Collection F D P) (s : internals_t F D P) :
    Nat × internals_t F D P :=
  (s.heap.length, { s with heap := s.heap ++ [obj] })

/-- `register_collection(nam, coll)`. -/
def internals_t.register_collection (nam : String) (coll : Nat) (s : internals_t F D P) :
    Nat × internals_t F D P :=
  (coll, { s with
    m_collections := map_emplace nam coll s.m_collections
    m_store := EventStore.registerCollection nam coll s.m_store })

/-- Body of the loop over `m_parent->m_containers` in `create_collections`. -/
def internals_t.create_container (s : internals_t F D P) (cont : String × String) :
    internals_t F D P :=
  let nam := cont.1
  let typ := cont.2
  if typ = "MCParticles" then
    let a := s.alloc (.MCParticleCollection [])
    let r := a.2.register_collection nam a.1
    { r.2 with m_particles := some r.1 }
  else if typ = "TrackerHits" then
    let a := s.alloc (.TrackerHitCollection [])
    (a.2.register_collection nam a.1).2
  else if typ = "CalorimeterHits" then
    let a := s.alloc (.CalorimeterHitCollection [])
    (a.2.register_collection nam a.1).2
  else s

/-- `create_collections()`. -/
def internals_t.create_collections (parent : DigiEdm4hepOutput) (s : internals_t F D P) :
    internals_t F D P :=
  match s.m_header with
  | none =>
    let a := s.alloc (.EventHeaderCollection [])
    let r := a.2.register_collection "EventHeader" a.1
    let s1 : internals_t F D P := { r.2 with m_header := some r.1 }
    parent.m_containers.foldl internals_t.create_container s1
  | some _ => s

/-- The object behind a pointer is replaced by its updated value (an update in place
through the pointer). -/
def internals_t.update (s : internals_t F D P) (coll : Nat) (obj : Collection F D P) :
    internals_t F D P :=
  { s with heap := s.heap.set coll obj }

/-- `get_collection(cont)`: the pointer stored under `cont.name`, or the exception. -/
def internals_t.get_collection (name : String) (s : internals_t F D P) : Except Fault Nat :=
  match map_find name s.m_collections with
  | none => .error .collection_not_found
  | some coll => .ok coll

/-- `m_file.reset()`: the writer, if any, is destroyed. -/
def internals_t.reset_file (s : internals_t F D P) : internals_t F D P :=
  match s.m_file with
  | some w => { s with m_file := none, released := s.released ++ [w] }
  | none => s

/-- `commit()`. -/
def internals_t.commit (s : internals_t F D P) : Result (internals_t F D P) :=
  match s.m_file with
  | some w =>
    let s1 := { s with m_file := some (w.writeEvent s.m_store s.heap) }
    .ok { s1 with heap := EventStore.clearCollections s1.m_store s1.heap }
  | none => .raised .stream_not_open s

/-- `close()`. -/
def internals_t.close (s : internals_t F D P) : internals_t F D P :=
  let s1 := match s.m_file with
    | some w => { s with m_file := some w.finish }
    | none => s
  s1.reset_file

/-- `open()`; `fname` is the value of `m_parent->next_stream_name()`. -/
def internals_t.open (fname : String) (s : internals_t F D P) : internals_t F D P :=
  let s1 := match s.m_file with
    | some _ => s.close
    | none => s
  let s2 := s1.reset_file
  let w := s2.m_collections.foldl
    (fun (w : ROOTWriter F D P) c => w.registerForWrite c.1) (ROOTWriter.create fname)
  { s2 with m_file := some w }

/-- `DigiEdm4hepOutput::initialize()` on freshly constructed internals: the collections
are created (the check of the registered processors and `m_parallel = false` do not
touch the internals). -/
def DigiEdm4hepOutput.initialise (parent : DigiEdm4hepOutput) : internals_t F D P :=
  internals_t.create.create_collections parent

/-- `have_output()`. -/
def DigiEdm4hepOutput.have_output (s : internals_t F D P) : Bool :=
  s.m_file.isSome

end code

/-! ## `DigiEdm4hepOutputProcessor` -/

section processor

variable {F D P : Type}

/-- Modelled from the spec: `data_io<edm4hep_input>::_to_edm4hep(cont, coll)` of
`DigiIO.cpp`, which is not part of the translated file.  It appends one output entry
per input particle, in input order. -/
def data_io._to_edm4hep_particles (cont : ParticleMapping P)
    (coll : List (MCParticle P)) : List (MCParticle P) :=
  coll ++ cont.data.map (fun p => { source := p })

/-- Modelled from the spec: `data_io<edm4hep_input>::_to_edm4hep(depo, covMat,
collection, hit_type)` of `DigiIO.cpp`, which is not part of the translated file.  It
appends one tracker hit made from the deposit, carrying the covariance and the hit
type it was given. -/
def data_io._to_edm4hep_tracker (depo : CellID × D) (covMat : List F)
    (collection : List (TrackerHit F D)) (hit_type : Int) : List (TrackerHit F D) :=
  collection ++ [{ source := depo, covMatrix := covMat, type := hit_type }]

/-- Modelled from the spec: `data_io<edm4hep_input>::_to_edm4hep(depo, collection,
hit_type)` of `DigiIO.cpp`, which is not part of the translated file.  It appends one
calorimeter hit made from the deposit, carrying the hit type it was given. -/
def data_io._to_edm4hep_calorimeter (depo : CellID × D)
    (collection : List (CalorimeterHit D)) (hit_type : Int) : List (CalorimeterHit D) :=
  collection ++ [{ source := depo, type := hit_type }]

/-- The local `covMat` of the tracker hit overload of `convert_depos`. -/
def DigiEdm4hepOutputProcessor.covMat [Zero F] [Mul F]
    (proc : DigiEdm4hepOutputProcessor F) : List F :=
  [0, 0, proc.m_pointResoutionRPhi * proc.m_pointResoutionRPhi,
   0, 0, proc.m_pointResoutionZ * proc.m_pointResoutionZ]

/-- `convert_depos(cont, predicate, edm4hep::TrackerHitCollection*)`. -/
def DigiEdm4hepOutputProcessor.convert_depos_tracker [Zero F] [Mul F]
    (proc : DigiEdm4hepOutputProcessor F) (cont : List (CellID × D))
    (predicate : predicate_t D) (collection : List (TrackerHit F D)) :
    List (TrackerHit F D) :=
  let covMat := proc.covMat
  cont.foldl
    (fun coll depo =>
      if predicate depo then data_io._to_edm4hep_tracker depo covMat coll proc.m_hit_type
      else coll)
    collection

/-- `convert_depos(cont, predicate, edm4hep::CalorimeterHitCollection*)`. -/
def DigiEdm4hepOutputProcessor.convert_depos_calorimeter
    (proc : DigiEdm4hepOutputProcessor F) (cont : List (CellID × D))
    (predicate : predicate_t D) (collection : List (CalorimeterHit D)) :
    List (CalorimeterHit D) :=
  cont.foldl
    (fun coll depo =>
      if predicate depo then data_io._to_edm4hep_calorimeter depo coll proc.m_hit_type
      else coll)
    collection

/-- `convert_particles(ctxt, cont)`: the target is the pointer `internals->m_particles`,
used without a check. -/
def DigiEdm4hepOutputProcessor.convert_particles (_proc : DigiEdm4hepOutputProcessor F)
    (cont : ParticleMapping P) (s : internals_t F D P) : Result (internals_t F D P) :=
  match s.m_particles with
  | none => .raised .null_dereference s
  | some coll =>
    match s.heap[coll]? with
    | some (.MCParticleCollection es) =>
      .ok (s.update coll (.MCParticleCollection (data_io._to_edm4hep_particles cont es)))
    | _ => .raised .bad_cast s

/-- `convert_deposits(ctxt, cont, predicate)`, for both container types: `name`,
`data_type` and `data` are the members of `cont` the template reads. -/
def DigiEdm4hepOutputProcessor.convert_deposits [Zero F] [Mul F]
    (proc : DigiEdm4hepOutputProcessor F) (name : String) (data_type : data_type_t)
    (data : List (CellID × D)) (predicate : predicate_t D) (s : internals_t F D P) :
    Result (internals_t F D P) :=
  match s.get_collection name with
  | .error e => .raised e s
  | .ok coll =>
    if data.isEmpty then .ok s
    else
      match data_type with
      | .TRACKER_HITS =>
        match s.heap[coll]? with
        | some (.TrackerHitCollection es) =>
          .ok (s.update coll
            (.TrackerHitCollection (proc.convert_depos_tracker data predicate es)))
        | _ => .raised .bad_cast s
      | .CALORIMETER_HITS =>
        match s.heap[coll]? with
        | some (.CalorimeterHitCollection es) =>
          .ok (s.update coll
            (.CalorimeterHitCollection (proc.convert_depos_calorimeter data predicate es)))
        | _ => .raised .bad_cast s
      | .other code => .raised (.unknown_deposit_type code) s

/-- `convert_history`: a log line only. -/
def DigiEdm4hepOutputProcessor.convert_history (_proc : DigiEdm4hepOutputProcessor F)
    (_cont : DepositsHistory) (_predicate : predicate_t D) (s : internals_t F D P) :
    Result (internals_t F D P) :=
  .ok s

/-- `execute(ctxt, work, predicate)`. -/
def DigiEdm4hepOutputProcessor.execute [Zero F] [Mul F]
    (proc : DigiEdm4hepOutputProcessor F) (work : work_t D P) (predicate : predicate_t D)
    (s : internals_t F D P) : Result (internals_t F D P) :=
  match work with
  | .particle_mapping p => proc.convert_particles p s
  | .deposit_mapping m => proc.convert_deposits m.name m.data_type m.data predicate s
  | .deposit_vector v => proc.convert_deposits v.name v.data_type v.data predicate s
  | .deposits_history h => proc.convert_history h predicate s
  | .unknown n => .raised (.unknown_data_type n) s

end processor

/-! ## Runs of the output stage -/

section runs

variable {F D P : Type}

/-- One call made on the shared internals by the framework: the four stream operations
of the output action, a repeated `create_collections`, or `execute` of a processor. -/
inductive Call (F D P : Type) where
  | create_collections
  | open_output (fname : String)
  | close_output
  | commit_output
  | execute (proc : DigiEdm4hepOutputProcessor F) (work : work_t D P)
      (predicate : predicate_t D)

/-- State after one call, whether it returned or threw. -/
def Call.apply [Zero F] [Mul F] (parent : DigiEdm4hepOutput) (s : internals_t F D P) :
    Call F D P → internals_t F D P
  | .create_collections => s.create_collections parent
  | .open_output fname => internals_t.open fname s
  | .close_output => s.close
  | .commit_output => s.commit.state
  | .execute proc work predicate => (proc.execute work predicate s).state

/-- State after a sequence of calls. -/
def run [Zero F] [Mul F] (parent : DigiEdm4hepOutput) (calls : List (Call F D P))
    (s : internals_t F D P) : internals_t F D P :=
  calls.foldl (Call.apply parent) s

/-- A sequence of `execute` calls, the only calls that append to collections. -/
def executes (es : List (DigiEdm4hepOutputProcessor F × work_t D P × predicate_t D)) :
    List (Call F D P) :=
  es.map (fun e => Call.execute e.1 e.2.1 e.2.2)

/-- The object a pointer refers to. -/
def internals_t.object (s : internals_t F D P) (coll : Nat) : Option (Collection F D P) :=
  s.heap[coll]?

/-- The names of the registry, in the iteration order of the map. -/
def internals_t.names (s : internals_t F D P) : List String :=
  s.m_collections.map Prod.fst

/-- The members of a deposit record that `convert_deposits` reads, for the two record
types routed to it (`DepositMapping`, `DepositVector`); `none` for any other input. -/
def work_t.as_deposits : work_t D P → Option (String × data_type_t × List (CellID × D))
  | .deposit_mapping m => some (m.name, m.data_type, m.data)
  | .deposit_vector v => some (v.name, v.data_type, v.data)
  | _ => none

/-- The states the output stage can be in: those a sequence of calls leads to from the
state `initialize()` sets up. -/
def Reachable [Zero F] [Mul F] (parent : DigiEdm4hepOutput) (s : internals_t F D P) : Prop :=
  ∃ calls : List (Call F D P), run parent calls parent.initialise = s

end runs

/-! ## Invariants -/

section invariant_definitions

variable {F D P : Type}

/-- The writers `close` (and the implicit close of `open`) releases: the current one,
finalized, if there is one. -/
def internals_t.closing (s : internals_t F D P) : List (ROOTWriter F D P) :=
  match s.m_file with
  | some w => [w.finish]
  | none => []

/-- The registration discipline of `register_collection`: the store and the map agree
on every name, a name has one pointer in the map, and every pointer of the map refers
to an allocated object. -/
structure Registered (s : internals_t F D P) : Prop where
  store_get : ∀ n, EventStore.get n s.m_store = map_find n s.m_collections
  unique : ∀ np ∈ s.m_collections, map_find np.1 s.m_collections = some np.2
  valid : ∀ np ∈ s.m_collections, np.2 < s.heap.length

/-- What holds in every state of the output stage after `initialize()`. -/
structure Inv (s : internals_t F D P) : Prop where
  registered : Registered s
  header : s.m_header.isSome = true
  writer : ∀ w, s.m_file = some w → w.collectionsToWrite = s.names ∧ w.finished = false
  released : ∀ w ∈ s.released, w.finished = true

end invariant_definitions

/-! ## A small configuration for concrete checks -/

/-- One tracker-hit, one particle and one calorimeter-hit container. -/
def demo_parent : DigiEdm4hepOutput :=
  { m_containers := [("SiHits", "TrackerHits"), ("MC", "MCParticles"),
      ("Ecal", "CalorimeterHits")] }

/-- A configuration that declares no particle container. -/
def demo_parent_hits_only : DigiEdm4hepOutput :=
  { m_containers := [("SiHits", "TrackerHits")] }

/-- A processor with resolutions 2 and 5 and hit type 7, over integer scalars. -/
def demo_proc : DigiEdm4hepOutputProcessor Int :=
  { m_pointResoutionRPhi := 2, m_pointResoutionZ := 5, m_hit_type := 7 }

/-- The initialized output stage of `demo_parent`. -/
def demo_state : internals_t Int Nat Nat :=
  demo_parent.initialise

/-- The initialized output stage of `demo_parent_hits_only`. -/
def demo_state_hits_only : internals_t Int Nat Nat :=
  demo_parent_hits_only.initialise

/-- Three tracker deposits for the container `SiHits`. -/
def demo_deposits : DepositVector Nat :=
  { name := "SiHits", key := 0, data_type := .TRACKER_HITS,
    data := [(1, 10), (2, 20), (3, 30)] }

/-- A predicate that rejects the second deposit of `demo_deposits`. -/
def demo_predicate : predicate_t Nat :=
  fun depo => depo.2 != 20

/-- The stage of `demo_parent` with a stream open and two hits converted. -/
def demo_open_state : internals_t Int Nat Nat :=
  run demo_parent
    [Call.open_output "a.root",
     Call.execute demo_proc (work_t.deposit_vector demo_deposits) demo_predicate]
    demo_parent.initialise


/-! ## The map and the store -/

theorem map_find_insert (k : String) (v : Nat) (n : String) :
    ∀ m : List (String × Nat), map_find k m = none →
      map_find n (map_insert k v m) = if k = n then some v else map_find n m
  | [], _ => by simp [map_insert, map_find]
  | (n', c) :: rest, h => by
    have hk : ¬ n' = k := by
      intro e
      simp [map_find, e] at h
    have hrest : map_find k rest = none := by
      simpa [map_find, hk] using h
    have ih := map_find_insert k v n rest hrest
    by_cases hl : string_less k n' = true
    · simp [map_insert, hl, map_find]
    · by_cases hn : n' = n
      · subst hn
        have hkn : ¬ k = n' := fun e => hk e.symm
        simp [map_insert, hl, map_find, hkn]
      · simp [map_insert, hl, map_find, hn, ih]

theorem map_find_emplace (k : String) (v : Nat) (n : String) (m : List (String × Nat)) :
    map_find n (map_emplace k v m) =
      match map_find n m with
      | some c => some c
      | none => if k = n then some v else none := by
  unfold map_emplace
  cases hk : map_find k m with
  | some c =>
    cases hn : map_find n m with
    | some c' => simp
    | none =>
      have : ¬ k = n := by
        intro e
        rw [e, hn] at hk
        cases hk
      simp [hn, this]
  | none =>
    simp only [map_find_insert k v n m hk]
    cases hn : map_find n m with
    | some c' =>
      have : ¬ k = n := by
        intro e
        rw [e, hn] at hk
        cases hk
      simp [this]
    | none => simp

theorem mem_map_insert (k : String) (v : Nat) (x : String × Nat) :
    ∀ m : List (String × Nat), x ∈ map_insert k v m ↔ x = (k, v) ∨ x ∈ m
  | [] => by simp [map_insert]
  | (n', c) :: rest => by
    by_cases hl : string_less k n' = true
    · simp [map_insert, hl]
    · simp [map_insert, hl, mem_map_insert k v x rest]
      tauto

theorem mem_map_emplace {k : String} {v : Nat} {x : String × Nat} {m : List (String × Nat)}
    (h : x ∈ map_emplace k v m) : (x = (k, v) ∧ map_find k m = none) ∨ x ∈ m := by
  unfold map_emplace at h
  cases hk : map_find k m with
  | some c =>
    rw [hk] at h
    exact Or.inr h
  | none =>
    rw [hk] at h
    rcases (mem_map_insert k v x m).1 h with h1 | h1
    · exact Or.inl ⟨h1, rfl⟩
    · exact Or.inr h1

theorem store_get_register (k : String) (v : Nat) (n : String) :
    ∀ store : List (String × Nat),
      EventStore.get n (EventStore.registerCollection k v store) =
        match EventStore.get n store with
        | some c => some c
        | none => if k = n then some v else none
  | [] => by simp [EventStore.registerCollection, EventStore.get]
  | (n', c) :: rest => by
    have ih := store_get_register k v n rest
    unfold EventStore.registerCollection at ih ⊢
    by_cases hn : n' = n
    · simp [EventStore.get, hn]
    · simp [EventStore.get, hn, ih]

theorem mem_of_store_get {n : String} {c : Nat} :
    ∀ {store : List (String × Nat)}, EventStore.get n store = some c → (n, c) ∈ store
  | [], h => by simp [EventStore.get] at h
  | (n', c') :: rest, h => by
    by_cases hn : n' = n
    · simp [EventStore.get, hn] at h
      simp [hn, h]
    · simp [EventStore.get, hn] at h
      exact List.mem_cons_of_mem _ (mem_of_store_get h)

/-! ## Clearing the store -/

section clearing

variable {F D P : Type}

theorem Collection.size_clear (c : Collection F D P) : c.clear.size = 0 := by
  cases c <;> rfl

theorem Collection.clear_clear (c : Collection F D P) : c.clear.clear = c.clear := by
  cases c <;> rfl

theorem clearCollections_length (store : List (String × Nat)) :
    ∀ heap : List (Collection F D P),
      (EventStore.clearCollections store heap).length = heap.length := by
  induction store with
  | nil => intro heap; rfl
  | cons nc rest ih =>
    intro heap
    unfold EventStore.clearCollections at ih ⊢
    rw [List.foldl_cons, ih]
    cases heap[nc.2]? <;> simp

theorem clearCollections_getElem? (store : List (String × Nat)) (i : Nat) :
    ∀ heap : List (Collection F D P),
      (EventStore.clearCollections store heap)[i]? =
        if i ∈ store.map Prod.snd then (heap[i]?).map Collection.clear else heap[i]? := by
  induction store with
  | nil => intro heap; simp [EventStore.clearCollections]
  | cons nc rest ih =>
    intro heap
    unfold EventStore.clearCollections at ih ⊢
    rw [List.foldl_cons, ih]
    by_cases hi : i = nc.2
    · subst hi
      cases hc : heap[nc.2]? with
      | none => simp [hc]
      | some c =>
        have hlt : nc.2 < heap.length := by
          rcases List.getElem?_eq_some.1 hc with ⟨h, _⟩
          exact h
        simp [List.getElem?_set, hlt, Collection.clear_clear]
    · have hne : ¬ nc.2 = i := fun e => hi e.symm
      cases hc : heap[nc.2]? with
      | none =>
        by_cases hm : i ∈ rest.map Prod.snd
        · simp [hm]
        · simp [hm, hi]
      | some c =>
        by_cases hm : i ∈ rest.map Prod.snd
        · simp [List.getElem?_set, hne, hm]
        · simp [List.getElem?_set, hne, hm, hi]

end clearing

/-! ## Shape of the stream operations -/

section shapes

variable {F D P : Type}

theorem foldl_registerForWrite (l : List (String × Nat)) :
    ∀ w : ROOTWriter F D P,
      l.foldl (fun (w : ROOTWriter F D P) c => w.registerForWrite c.1) w =
        { w with collectionsToWrite := w.collectionsToWrite ++ l.map Prod.fst } := by
  induction l with
  | nil => intro w; simp
  | cons c rest ih =>
    intro w
    rw [List.foldl_cons, ih]
    simp [ROOTWriter.registerForWrite]

theorem close_eq (s : internals_t F D P) :
    s.close = { s with m_file := none, released := s.released ++ s.closing } := by
  cases s with
  | mk heap store file header particles colls released =>
    cases file <;> simp [internals_t.close, internals_t.reset_file, internals_t.closing]

theorem open_eq (fname : String) (s : internals_t F D P) :
    internals_t.open fname s =
      { s with
        m_file := some
          { filename := fname, collectionsToWrite := s.names, events := [],
            finished := false }
        released := s.released ++ s.closing } := by
  cases s with
  | mk heap store file header particles colls released =>
    cases file <;>
      simp [internals_t.open, internals_t.close, internals_t.reset_file,
        internals_t.closing, foldl_registerForWrite, ROOTWriter.create, internals_t.names]

theorem commit_open (s : internals_t F D P) (w : ROOTWriter F D P) (h : s.m_file = some w) :
    s.commit = .ok { s with
      m_file := some (w.writeEvent s.m_store s.heap)
      heap := EventStore.clearCollections s.m_store s.heap } := by
  simp [internals_t.commit, h]

theorem commit_closed (s : internals_t F D P) (h : s.m_file = none) :
    s.commit = .raised .stream_not_open s := by
  simp [internals_t.commit, h]

theorem set_getElem?_self :
    ∀ (l : List (Collection F D P)) (i : Nat) (c : Collection F D P),
      l[i]? = some c → l.set i c = l
  | [], _, _, h => by simp at h
  | a :: l, 0, c, h => by
    simp at h
    simp [h]
  | a :: l, i + 1, c, h => by
    simp at h
    simp [set_getElem?_self l i c h]

end shapes

/-! ## The conversion loops -/

section conversions

variable {F D P : Type}

theorem convert_depos_tracker_eq [Zero F] [Mul F] (proc : DigiEdm4hepOutputProcessor F)
    (predicate : predicate_t D) (cont : List (CellID × D)) :
    ∀ collection : List (TrackerHit F D),
      proc.convert_depos_tracker cont predicate collection =
        collection ++ (cont.filter predicate).map
          (fun depo => { source := depo, covMatrix := proc.covMat, type := proc.m_hit_type }) := by
  induction cont with
  | nil => intro collection; simp [DigiEdm4hepOutputProcessor.convert_depos_tracker]
  | cons depo rest ih =>
    intro collection
    unfold DigiEdm4hepOutputProcessor.convert_depos_tracker at ih ⊢
    simp only [List.foldl_cons]
    rw [ih]
    by_cases hp : predicate depo = true
    · simp [hp, data_io._to_edm4hep_tracker, List.filter_cons]
    · simp [hp, List.filter_cons]

theorem convert_depos_calorimeter_eq (proc : DigiEdm4hepOutputProcessor F)
    (predicate : predicate_t D) (cont : List (CellID × D)) :
    ∀ collection : List (CalorimeterHit D),
      proc.convert_depos_calorimeter cont predicate collection =
        collection ++ (cont.filter predicate).map
          (fun depo => { source := depo, type := proc.m_hit_type }) := by
  induction cont with
  | nil => intro collection; simp [DigiEdm4hepOutputProcessor.convert_depos_calorimeter]
  | cons depo rest ih =>
    intro collection
    unfold DigiEdm4hepOutputProcessor.convert_depos_calorimeter at ih ⊢
    simp only [List.foldl_cons]
    rw [ih]
    by_cases hp : predicate depo = true
    · simp [hp, data_io._to_edm4hep_calorimeter, List.filter_cons]
    · simp [hp, List.filter_cons]

/-- A tracker-hit target: `convert_deposits` returns with the filtered images appended
to the collection stored under the name; every other member is as before. -/
theorem convert_deposits_tracker [Zero F] [Mul F] (proc : DigiEdm4hepOutputProcessor F)
    (name : String) (data : List (CellID × D)) (predicate : predicate_t D)
    (s : internals_t F D P) (coll : Nat) (es : List (TrackerHit F D))
    (hname : map_find name s.m_collections = some coll)
    (hobj : s.heap[coll]? = some (.TrackerHitCollection es)) :
    proc.convert_deposits name .TRACKER_HITS data predicate s =
      .ok (s.update coll
        (.TrackerHitCollection (es ++ (data.filter predicate).map
          (fun depo =>
            { source := depo, covMatrix := proc.covMat, type := proc.m_hit_type })))) := by
  cases data with
  | nil =>
    simp [DigiEdm4hepOutputProcessor.convert_deposits, internals_t.get_collection, hname,
      internals_t.update, set_getElem?_self _ _ _ hobj]
  | cons d rest =>
    simp [DigiEdm4hepOutputProcessor.convert_deposits, internals_t.get_collection, hname,
      hobj, convert_depos_tracker_eq]

/-- A calorimeter-hit target: as for tracker hits, without a covariance. -/
theorem convert_deposits_calorimeter [Zero F] [Mul F] (proc : DigiEdm4hepOutputProcessor F)
    (name : String) (data : List (CellID × D)) (predicate : predicate_t D)
    (s : internals_t F D P) (coll : Nat) (es : List (CalorimeterHit D))
    (hname : map_find name s.m_collections = some coll)
    (hobj : s.heap[coll]? = some (.CalorimeterHitCollection es)) :
    proc.convert_deposits name .CALORIMETER_HITS data predicate s =
      .ok (s.update coll
        (.CalorimeterHitCollection (es ++ (data.filter predicate).map
          (fun depo => { source := depo, type := proc.m_hit_type })))) := by
  cases data with
  | nil =>
    simp [DigiEdm4hepOutputProcessor.convert_deposits, internals_t.get_collection, hname,
      internals_t.update, set_getElem?_self _ _ _ hobj]
  | cons d rest =>
    simp [DigiEdm4hepOutputProcessor.convert_deposits, internals_t.get_collection, hname,
      hobj, convert_depos_calorimeter_eq]

/-- The two deposit record types are routed to `convert_deposits`. -/
theorem execute_as_deposits [Zero F] [Mul F] (proc : DigiEdm4hepOutputProcessor F)
    (work : work_t D P) (predicate : predicate_t D) (s : internals_t F D P)
    (name : String) (dt : data_type_t) (data : List (CellID × D))
    (hwork : work.as_deposits = some (name, dt, data)) :
    proc.execute work predicate s = proc.convert_deposits name dt data predicate s := by
  cases work with
  | deposit_mapping m =>
    simp only [work_t.as_deposits, Option.some.injEq, Prod.mk.injEq] at hwork
    obtain ⟨h1, h2, h3⟩ := hwork
    simp only [DigiEdm4hepOutputProcessor.execute, h1, h2, h3]
  | deposit_vector v =>
    simp only [work_t.as_deposits, Option.some.injEq, Prod.mk.injEq] at hwork
    obtain ⟨h1, h2, h3⟩ := hwork
    simp only [DigiEdm4hepOutputProcessor.execute, h1, h2, h3]
  | particle_mapping p => simp [work_t.as_deposits] at hwork
  | deposits_history h => simp [work_t.as_deposits] at hwork
  | unknown n => simp [work_t.as_deposits] at hwork

/-- Whatever `execute` does, it leaves every member but the heap alone, and in the heap
it neither creates nor destroys an object. -/
theorem execute_state [Zero F] [Mul F] (proc : DigiEdm4hepOutputProcessor F)
    (work : work_t D P) (predicate : predicate_t D) (s : internals_t F D P) :
    ∃ heap : List (Collection F D P),
      (proc.execute work predicate s).state = { s with heap := heap } ∧
        heap.length = s.heap.length := by
  obtain ⟨heap, store, file, header, particles, colls, released⟩ := s
  have deposits : ∀ (name : String) (dt : data_type_t) (data : List (CellID × D)),
      ∃ heap' : List (Collection F D P),
        (proc.convert_deposits name dt data predicate
            (⟨heap, store, file, header, particles, colls, released⟩ :
              internals_t F D P)).state =
          ⟨heap', store, file, header, particles, colls, released⟩ ∧
          heap'.length = heap.length := by
    intro name dt data
    simp only [DigiEdm4hepOutputProcessor.convert_deposits, internals_t.get_collection]
    cases map_find name colls with
    | none => exact ⟨heap, rfl, rfl⟩
    | some coll =>
      by_cases hd : data.isEmpty = true
      · simp only [hd]
        exact ⟨heap, rfl, rfl⟩
      · simp only [hd]
        cases dt with
        | TRACKER_HITS =>
          cases hc : heap[coll]? with
          | none => exact ⟨heap, by simp [hc, Result.state], rfl⟩
          | some obj =>
            cases obj with
            | TrackerHitCollection es =>
              exact ⟨_, by simp [hc, Result.state, internals_t.update]; rfl, by simp⟩
            | EventHeaderCollection es => exact ⟨heap, by simp [hc, Result.state], rfl⟩
            | MCParticleCollection es => exact ⟨heap, by simp [hc, Result.state], rfl⟩
            | CalorimeterHitCollection es => exact ⟨heap, by simp [hc, Result.state], rfl⟩
        | CALORIMETER_HITS =>
          cases hc : heap[coll]? with
          | none => exact ⟨heap, by simp [hc, Result.state], rfl⟩
          | some obj =>
            cases obj with
            | CalorimeterHitCollection es =>
              exact ⟨_, by simp [hc, Result.state, internals_t.update]; rfl, by simp⟩
            | EventHeaderCollection es => exact ⟨heap, by simp [hc, Result.state], rfl⟩
            | MCParticleCollection es => exact ⟨heap, by simp [hc, Result.state], rfl⟩
            | TrackerHitCollection es => exact ⟨heap, by simp [hc, Result.state], rfl⟩
        | other code => exact ⟨heap, rfl, rfl⟩
  cases work with
  | particle_mapping p =>
    simp only [DigiEdm4hepOutputProcessor.execute,
      DigiEdm4hepOutputProcessor.convert_particles]
    cases particles with
    | none => exact ⟨heap, rfl, rfl⟩
    | some coll =>
      cases hc : heap[coll]? with
      | none => exact ⟨heap, by simp [hc, Result.state], rfl⟩
      | some obj =>
        cases obj with
        | MCParticleCollection es =>
          exact ⟨_, by simp [hc, Result.state, internals_t.update]; rfl, by simp⟩
        | EventHeaderCollection es => exact ⟨heap, by simp [hc, Result.state], rfl⟩
        | TrackerHitCollection es => exact ⟨heap, by simp [hc, Result.state], rfl⟩
        | CalorimeterHitCollection es => exact ⟨heap, by simp [hc, Result.state], rfl⟩
  | deposit_mapping m => exact deposits m.name m.data_type m.data
  | deposit_vector v => exact deposits v.name v.data_type v.data
  | deposits_history h => exact ⟨heap, rfl, rfl⟩
  | unknown n => exact ⟨heap, rfl, rfl⟩

end conversions

/-! ## Invariants of the registry and the stream -/

section invariants

variable {F D P : Type}

theorem Registered.create : Registered (internals_t.create : internals_t F D P) where
  store_get := by intro n; rfl
  unique := by intro np h; simp [internals_t.create] at h
  valid := by intro np h; simp [internals_t.create] at h

theorem Registered.register {s : internals_t F D P} (h : Registered s) (nam : String)
    (obj : Collection F D P) :
    Registered ((s.alloc obj).2.register_collection nam (s.alloc obj).1).2 where
  store_get := by
    intro n
    simp only [internals_t.register_collection, internals_t.alloc]
    rw [store_get_register, map_find_emplace, h.store_get]
  unique := by
    intro np hnp
    simp only [internals_t.register_collection, internals_t.alloc] at hnp ⊢
    rw [map_find_emplace]
    rcases mem_map_emplace hnp with ⟨he, hk⟩ | hm
    · subst he
      simp [hk]
    · simp [h.unique np hm]
  valid := by
    intro np hnp
    simp only [internals_t.register_collection, internals_t.alloc] at hnp ⊢
    rcases mem_map_emplace hnp with ⟨he, _⟩ | hm
    · subst he
      simp
    · have := h.valid np hm
      simp
      omega

theorem create_container_spec (s : internals_t F D P) (cont : String × String)
    (h : Registered s) :
    Registered (s.create_container cont) ∧
      (s.create_container cont).m_file = s.m_file ∧
      (s.create_container cont).released = s.released ∧
      (s.create_container cont).m_header = s.m_header := by
  by_cases h1 : cont.2 = "MCParticles"
  · have e : s.create_container cont =
        { ((s.alloc (.MCParticleCollection [])).2.register_collection cont.1
              (s.alloc (.MCParticleCollection [])).1).2 with
          m_particles := some ((s.alloc (.MCParticleCollection [])).2.register_collection
            cont.1 (s.alloc (.MCParticleCollection [])).1).1 } := by
      simp [internals_t.create_container, h1]
    rw [e]
    have r := h.register cont.1 (.MCParticleCollection [])
    exact ⟨⟨r.store_get, r.unique, r.valid⟩, rfl, rfl, rfl⟩
  · by_cases h2 : cont.2 = "TrackerHits"
    · have e : s.create_container cont =
          ((s.alloc (.TrackerHitCollection [])).2.register_collection cont.1
            (s.alloc (.TrackerHitCollection [])).1).2 := by
        simp [internals_t.create_container, h2]
      rw [e]
      exact ⟨h.register cont.1 _, rfl, rfl, rfl⟩
    · by_cases h3 : cont.2 = "CalorimeterHits"
      · have e : s.create_container cont =
            ((s.alloc (.CalorimeterHitCollection [])).2.register_collection cont.1
              (s.alloc (.CalorimeterHitCollection [])).1).2 := by
          simp [internals_t.create_container, h3]
        rw [e]
        exact ⟨h.register cont.1 _, rfl, rfl, rfl⟩
      · have e : s.create_container cont = s := by
          simp [internals_t.create_container, h1, h2, h3]
        rw [e]
        exact ⟨h, rfl, rfl, rfl⟩

theorem foldl_create_container_spec (containers : List (String × String)) :
    ∀ s : internals_t F D P, Registered s →
      Registered (containers.foldl internals_t.create_container s) ∧
        (containers.foldl internals_t.create_container s).m_file = s.m_file ∧
        (containers.foldl internals_t.create_container s).released = s.released ∧
        (containers.foldl internals_t.create_container s).m_header = s.m_header := by
  induction containers with
  | nil => intro s h; exact ⟨h, rfl, rfl, rfl⟩
  | cons cont rest ih =>
    intro s h
    obtain ⟨h1, h2, h3, h4⟩ := create_container_spec s cont h
    obtain ⟨k1, k2, k3, k4⟩ := ih (s.create_container cont) h1
    rw [List.foldl_cons]
    exact ⟨k1, k2.trans h2, k3.trans h3, k4.trans h4⟩

/-- Once the header exists, `create_collections` changes nothing. -/
theorem create_collections_of_header (parent : DigiEdm4hepOutput) (s : internals_t F D P)
    (h : s.m_header.isSome = true) : s.create_collections parent = s := by
  unfold internals_t.create_collections
  cases hh : s.m_header with
  | none => simp [hh] at h
  | some p => rfl

theorem create_collections_spec (parent : DigiEdm4hepOutput) (s : internals_t F D P)
    (h : Registered s) :
    Registered (s.create_collections parent) ∧
      (s.create_collections parent).m_header.isSome = true ∧
      (s.create_collections parent).m_file = s.m_file ∧
      (s.create_collections parent).released = s.released := by
  cases hh : s.m_header with
  | some p =>
    have hs : s.m_header.isSome = true := by simp [hh]
    rw [create_collections_of_header parent s hs]
    exact ⟨h, hs, rfl, rfl⟩
  | none =>
    unfold internals_t.create_collections
    simp only [hh]
    have r := h.register "EventHeader" (.EventHeaderCollection [])
    have r1 : Registered
        ({ ((s.alloc (.EventHeaderCollection [])).2.register_collection "EventHeader"
              (s.alloc (.EventHeaderCollection [])).1).2 with
            m_header := some ((s.alloc (.EventHeaderCollection [])).2.register_collection
              "EventHeader" (s.alloc (.EventHeaderCollection [])).1).1 } :
          internals_t F D P) :=
      ⟨r.store_get, r.unique, r.valid⟩
    obtain ⟨k1, k2, k3, k4⟩ := foldl_create_container_spec parent.m_containers _ r1
    refine ⟨k1, ?_, ?_, ?_⟩
    · rw [k4]; rfl
    · rw [k2]; rfl
    · rw [k3]; rfl

theorem Inv.initialise (parent : DigiEdm4hepOutput) :
    Inv (parent.initialise : internals_t F D P) := by
  obtain ⟨h1, h2, h3, h4⟩ :=
    create_collections_spec parent (internals_t.create : internals_t F D P) Registered.create
  unfold DigiEdm4hepOutput.initialise
  refine ⟨h1, h2, ?_, ?_⟩
  · intro w hw
    rw [h3] at hw
    cases hw
  · intro w hw
    rw [h4] at hw
    simp [internals_t.create] at hw

theorem Inv.with_heap {s : internals_t F D P} (h : Inv s) (heap : List (Collection F D P))
    (hl : heap.length = s.heap.length) : Inv { s with heap := heap } where
  registered :=
    ⟨h.registered.store_get, h.registered.unique,
      fun np hnp => by
        have := h.registered.valid np hnp
        simp only
        omega⟩
  header := h.header
  writer := h.writer
  released := h.released

theorem closing_finished (s : internals_t F D P) : ∀ w ∈ s.closing, w.finished = true := by
  intro w hw
  unfold internals_t.closing at hw
  cases hf : s.m_file with
  | none => simp [hf] at hw
  | some w' =>
    simp [hf] at hw
    subst hw
    rfl

theorem Inv.open {s : internals_t F D P} (h : Inv s) (fname : String) :
    Inv (internals_t.open fname s) := by
  rw [open_eq]
  refine ⟨⟨h.registered.store_get, h.registered.unique, h.registered.valid⟩, h.header, ?_, ?_⟩
  · intro w hw
    simp only [Option.some.injEq] at hw
    subst hw
    exact ⟨rfl, rfl⟩
  · intro w hw
    rcases List.mem_append.1 hw with h1 | h1
    · exact h.released w h1
    · exact closing_finished s w h1

theorem Inv.close {s : internals_t F D P} (h : Inv s) : Inv s.close := by
  rw [close_eq]
  refine ⟨⟨h.registered.store_get, h.registered.unique, h.registered.valid⟩, h.header, ?_, ?_⟩
  · intro w hw
    cases hw
  · intro w hw
    rcases List.mem_append.1 hw with h1 | h1
    · exact h.released w h1
    · exact closing_finished s w h1

theorem Inv.commit {s : internals_t F D P} (h : Inv s) : Inv s.commit.state := by
  cases hf : s.m_file with
  | none =>
    rw [commit_closed s hf]
    exact h
  | some w =>
    rw [commit_open s w hf]
    refine ⟨⟨h.registered.store_get, h.registered.unique, ?_⟩, h.header, ?_, h.released⟩
    · intro np hnp
      have := h.registered.valid np hnp
      simp only [Result.state, clearCollections_length]
      exact this
    · intro w' hw'
      simp only [Result.state, Option.some.injEq] at hw'
      subst hw'
      exact h.writer w hf

theorem Inv.apply [Zero F] [Mul F] (parent : DigiEdm4hepOutput) {s : internals_t F D P}
    (h : Inv s) (c : Call F D P) : Inv (c.apply parent s) := by
  cases c with
  | create_collections =>
    simp only [Call.apply]
    rw [create_collections_of_header parent s h.header]
    exact h
  | open_output fname => exact h.open fname
  | close_output => exact h.close
  | commit_output => exact h.commit
  | execute proc work predicate =>
    obtain ⟨heap, he, hl⟩ := execute_state proc work predicate s
    simp only [Call.apply]
    rw [he]
    exact h.with_heap heap hl

theorem Inv.run [Zero F] [Mul F] (parent : DigiEdm4hepOutput) (calls : List (Call F D P)) :
    ∀ s : internals_t F D P, Inv s → Inv (run parent calls s) := by
  induction calls with
  | nil => intro s h; exact h
  | cons c rest ih =>
    intro s h
    exact ih _ (h.apply parent c)

theorem Reachable.inv [Zero F] [Mul F] {parent : DigiEdm4hepOutput} {s : internals_t F D P}
    (h : Reachable parent s) : Inv s := by
  obtain ⟨calls, rfl⟩ := h
  exact Inv.run parent calls _ (Inv.initialise parent)

end invariants

/-! ## The registry after initialization -/

section registry

variable {F D P : Type}

/-- After the header exists no call changes the registry, the store or the number of
allocated objects. -/
theorem registry_apply [Zero F] [Mul F] (parent : DigiEdm4hepOutput) (s : internals_t F D P)
    (h : s.m_header.isSome = true) (c : Call F D P) :
    (c.apply parent s).m_collections = s.m_collections ∧
      (c.apply parent s).m_header = s.m_header ∧
      (c.apply parent s).m_particles = s.m_particles ∧
      (c.apply parent s).m_store = s.m_store ∧
      (c.apply parent s).heap.length = s.heap.length := by
  cases c with
  | create_collections =>
    simp only [Call.apply]
    rw [create_collections_of_header parent s h]
    exact ⟨rfl, rfl, rfl, rfl, rfl⟩
  | open_output fname =>
    simp only [Call.apply]
    rw [open_eq]
    exact ⟨rfl, rfl, rfl, rfl, rfl⟩
  | close_output =>
    simp only [Call.apply]
    rw [close_eq]
    exact ⟨rfl, rfl, rfl, rfl, rfl⟩
  | commit_output =>
    simp only [Call.apply]
    cases hf : s.m_file with
    | none =>
      rw [commit_closed s hf]
      exact ⟨rfl, rfl, rfl, rfl, rfl⟩
    | some w =>
      rw [commit_open s w hf]
      exact ⟨rfl, rfl, rfl, rfl, by simp [Result.state, clearCollections_length]⟩
  | execute proc work predicate =>
    obtain ⟨heap, he, hl⟩ := execute_state proc work predicate s
    simp only [Call.apply]
    rw [he]
    exact ⟨rfl, rfl, rfl, rfl, hl⟩

theorem registry_run [Zero F] [Mul F] (parent : DigiEdm4hepOutput)
    (calls : List (Call F D P)) :
    ∀ s : internals_t F D P, s.m_header.isSome = true →
      (run parent calls s).m_collections = s.m_collections ∧
        (run parent calls s).m_header = s.m_header ∧
        (run parent calls s).m_particles = s.m_particles ∧
        (run parent calls s).m_store = s.m_store ∧
        (run parent calls s).heap.length = s.heap.length := by
  induction calls with
  | nil => intro s _; exact ⟨rfl, rfl, rfl, rfl, rfl⟩
  | cons c rest ih =>
    intro s h
    obtain ⟨h1, h2, h3, h4, h5⟩ := registry_apply parent s h c
    have h' : (c.apply parent s).m_header.isSome = true := by rw [h2]; exact h
    obtain ⟨k1, k2, k3, k4, k5⟩ := ih (c.apply parent s) h'
    exact ⟨k1.trans h1, k2.trans h2, k3.trans h3, k4.trans h4, k5.trans h5⟩

/-- A sequence of `execute` calls leaves the stream alone. -/
theorem executes_file [Zero F] [Mul F] (parent : DigiEdm4hepOutput)
    (es : List (DigiEdm4hepOutputProcessor F × work_t D P × predicate_t D)) :
    ∀ s : internals_t F D P,
      (run parent (executes es) s).m_file = s.m_file ∧
        (run parent (executes es) s).released = s.released := by
  induction es with
  | nil => intro s; exact ⟨rfl, rfl⟩
  | cons e rest ih =>
    intro s
    obtain ⟨heap, he, _⟩ := execute_state e.1 e.2.1 e.2.2 s
    obtain ⟨k1, k2⟩ := ih (e.1.execute e.2.1 e.2.2 s).state
    have step : run parent (executes (e :: rest)) s =
        run parent (executes rest) (e.1.execute e.2.1 e.2.2 s).state := rfl
    rw [step, k1, k2, he]
    exact ⟨rfl, rfl⟩

end registry

/-! ## The stream life cycle -/

section stream

variable {F D P : Type}

/-- C1: in every state whose stream is closed, `commit` throws the stream-not-open
exception and the state at the throw is the state before the call: no writer exists, so
no event record is written, the heap of collections is untouched and the stream is
still closed.  A state is closed in particular right after construction and right after
any `close`. -/
theorem commit_on_closed_stream (s : internals_t F D P)
    (h : DigiEdm4hepOutput.have_output s = false) :
    s.commit = .raised .stream_not_open s ∧
      s.commit.state.heap = s.heap ∧
      s.commit.state.released = s.released ∧
      DigiEdm4hepOutput.have_output s.commit.state = false := by
  have hf : s.m_file = none := by
    cases hm : s.m_file with
    | none => rfl
    | some w => simp [DigiEdm4hepOutput.have_output, hm] at h
  rw [commit_closed s hf]
  exact ⟨rfl, rfl, rfl, h⟩

/-- C10: from every state, closed or open, `open` ends with the stream open on a new
writer bound to the file name, nothing written yet, whose names registered for writing
are the names of the registry; the writers released are those `close` would have
released (the previous writer, finalized, when there was one, which then is the last
released), and neither the collections nor the registry change. -/
theorem open_registers_registry (fname : String) (s : internals_t F D P) :
    DigiEdm4hepOutput.have_output (internals_t.open fname s) = true ∧
      (internals_t.open fname s).m_file =
        some { filename := fname, collectionsToWrite := s.names, events := [],
               finished := false } ∧
      (internals_t.open fname s).released = s.close.released ∧
      (∀ w, s.m_file = some w →
        (internals_t.open fname s).released = s.released ++ [w.finish] ∧
          w.finish.finished = true) ∧
      (s.m_file = none → (internals_t.open fname s).released = s.released) ∧
      ((∀ r ∈ s.released, r.finished = true) →
        ∀ r ∈ (internals_t.open fname s).released, r.finished = true) ∧
      (internals_t.open fname s).heap = s.heap ∧
      (internals_t.open fname s).m_collections = s.m_collections ∧
      (internals_t.open fname s).names = s.names := by
  rw [open_eq, close_eq]
  refine ⟨rfl, rfl, rfl, ?_, ?_, ?_, rfl, rfl, rfl⟩
  · intro w hw
    simp [internals_t.closing, hw, ROOTWriter.finish]
  · intro hw
    simp [internals_t.closing, hw]
  · intro hall r hr
    rcases List.mem_append.1 hr with h1 | h1
    · exact hall r h1
    · exact closing_finished s r h1

end stream

/-! ## The conversion dispatch -/

section dispatch

variable {F D P : Type}

/-- C4: a deposit record (mapping or vector, empty or not, of any data type, under any
predicate) whose name is not a key of the registry makes `execute` throw the exception
of `get_collection`, and the state at the throw is the state before the call, so every
collection has the entries it had. -/
theorem execute_unknown_name [Zero F] [Mul F] (proc : DigiEdm4hepOutputProcessor F)
    (work : work_t D P) (predicate : predicate_t D) (s : internals_t F D P)
    (name : String) (dt : data_type_t) (data : List (CellID × D))
    (hwork : work.as_deposits = some (name, dt, data))
    (hname : map_find name s.m_collections = none) :
    proc.execute work predicate s = .raised .collection_not_found s ∧
      (proc.execute work predicate s).state.heap = s.heap := by
  have key : proc.convert_deposits name dt data predicate s =
      .raised .collection_not_found s := by
    simp [DigiEdm4hepOutputProcessor.convert_deposits, internals_t.get_collection, hname]
  rw [execute_as_deposits proc work predicate s name dt data hwork, key]
  exact ⟨rfl, rfl⟩

/-- C7, as the code has it: for a deposit record (mapping or vector) whose name is a
key of the registry and whose data type is neither tracker hits nor calorimeter hits,
`execute` throws the unknown-deposit-type exception, under every predicate, when the
record holds at least one entry, and the state at the throw is the state before the
call; when the record holds no entry, `execute` returns normally and changes nothing. -/
theorem execute_unknown_deposit_type [Zero F] [Mul F] (proc : DigiEdm4hepOutputProcessor F)
    (work : work_t D P) (predicate : predicate_t D) (s : internals_t F D P)
    (name : String) (code : Int) (data : List (CellID × D)) (coll : Nat)
    (hwork : work.as_deposits = some (name, .other code, data))
    (hname : map_find name s.m_collections = some coll) :
    (data ≠ [] → proc.execute work predicate s = .raised (.unknown_deposit_type code) s) ∧
      (data = [] → proc.execute work predicate s = .ok s) := by
  have key : (data ≠ [] → proc.convert_deposits name (.other code) data predicate s =
        .raised (.unknown_deposit_type code) s) ∧
      (data = [] → proc.convert_deposits name (.other code) data predicate s = .ok s) := by
    constructor
    · intro hd
      cases data with
      | nil => exact absurd rfl hd
      | cons d rest =>
        simp [DigiEdm4hepOutputProcessor.convert_deposits, internals_t.get_collection, hname]
    · intro hd
      subst hd
      simp [DigiEdm4hepOutputProcessor.convert_deposits, internals_t.get_collection, hname]
  rw [execute_as_deposits proc work predicate s name (.other code) data hwork]
  exact key

end dispatch

/-! ## Commit -/

section commit

variable {F D P : Type}

theorem record_of_registry (store : List (String × Nat)) (heap : List (Collection F D P)) :
    ∀ l : List (String × Nat),
      (∀ np ∈ l, EventStore.get np.1 store = some np.2 ∧ np.2 < heap.length) →
      List.Forall₂ (fun np rc => rc.1 = np.1 ∧ heap[np.2]? = some rc.2) l
        ((l.map Prod.fst).filterMap (fun n =>
          match EventStore.get n store with
          | some c => (heap[c]?).map (fun obj => (n, obj))
          | none => none)) := by
  intro l
  induction l with
  | nil => intro _; simp
  | cons np rest ih =>
    intro h
    obtain ⟨hg, hv⟩ := h np (List.mem_cons_self _ _)
    have hrest := ih (fun x hx => h x (List.mem_cons_of_mem _ hx))
    have hobj : heap[np.2]? = some (heap.get ⟨np.2, hv⟩) := by
      simp [List.getElem?_eq_getElem hv]
    rw [List.map_cons, List.filterMap_cons_some (b := (np.1, heap.get ⟨np.2, hv⟩))]
    · exact List.Forall₂.cons ⟨rfl, hobj⟩ hrest
    · simp [hg, hobj]

/-- Clearing the store empties every collection of the registry, in place. -/
theorem commit_clears {s : internals_t F D P} (inv : Inv s) :
    ∀ np ∈ s.m_collections, ∃ obj, s.heap[np.2]? = some obj ∧
      (EventStore.clearCollections s.m_store s.heap)[np.2]? = some obj.clear := by
  intro np hnp
  have hg : EventStore.get np.1 s.m_store = some np.2 :=
    (inv.registered.store_get np.1).trans (inv.registered.unique np hnp)
  have hv := inv.registered.valid np hnp
  have hin : np.2 ∈ s.m_store.map Prod.snd :=
    List.mem_map.2 ⟨(np.1, np.2), mem_of_store_get hg, rfl⟩
  refine ⟨s.heap.get ⟨np.2, hv⟩, by simp [List.getElem?_eq_getElem hv], ?_⟩
  rw [clearCollections_getElem?, if_pos hin]
  simp [List.getElem?_eq_getElem hv]

/-- An open stream commits: the call returns normally, with the state it ends in. -/
theorem commit_ok (s : internals_t F D P) (w : ROOTWriter F D P) (h : s.m_file = some w) :
    s.commit = .ok s.commit.state ∧
      s.commit.state.m_file = some (w.writeEvent s.m_store s.heap) ∧
      s.commit.state.heap = EventStore.clearCollections s.m_store s.heap ∧
      s.commit.state.m_store = s.m_store := by
  rw [commit_open s w h]
  exact ⟨rfl, rfl, rfl, rfl⟩

/-- C2: in every open state the output stage can reach (whatever was appended before),
`commit` returns normally; the writer has exactly one more event record, which lists,
name by name in registry order, the contents each collection of the registry had at the
call; afterwards every collection of the registry is the same object, cleared, so of
size 0; the registry and its names are unchanged and the stream is still open on the
same writer. -/
theorem commit_writes_then_clears [Zero F] [Mul F] (parent : DigiEdm4hepOutput)
    (s : internals_t F D P) (w : ROOTWriter F D P)
    (hs : Reachable parent s) (hopen : s.m_file = some w) :
    ∃ (s' : internals_t F D P) (record : List (String × Collection F D P)),
      s.commit = .ok s' ∧
      s'.m_file = some { w with events := w.events ++ [record] } ∧
      List.Forall₂ (fun np rc => rc.1 = np.1 ∧ s.object np.2 = some rc.2)
        s.m_collections record ∧
      (∀ np ∈ s'.m_collections, ∃ obj, s.object np.2 = some obj ∧
        s'.object np.2 = some obj.clear ∧ obj.clear.size = 0) ∧
      s'.m_collections = s.m_collections ∧
      s'.names = s.names ∧
      s'.heap.length = s.heap.length ∧
      s'.released = s.released ∧
      DigiEdm4hepOutput.have_output s' = true := by
  have inv := hs.inv
  have hmem : ∀ np ∈ s.m_collections,
      EventStore.get np.1 s.m_store = some np.2 ∧ np.2 < s.heap.length := by
    intro np hnp
    exact ⟨(inv.registered.store_get np.1).trans (inv.registered.unique np hnp),
      inv.registered.valid np hnp⟩
  have hw := (inv.writer w hopen).1
  refine ⟨_, w.collectionsToWrite.filterMap (fun n =>
      match EventStore.get n s.m_store with
      | some c => (s.heap[c]?).map (fun obj => (n, obj))
      | none => none), commit_open s w hopen, rfl, ?_, ?_, rfl, rfl, ?_, rfl, rfl⟩
  · rw [hw]
    exact record_of_registry s.m_store s.heap s.m_collections hmem
  · intro np hnp
    obtain ⟨obj, h1, h2⟩ := commit_clears inv np hnp
    exact ⟨obj, h1, h2, Collection.size_clear _⟩
  · simp [clearCollections_length]

end commit

/-! ## Filtering and covariance -/

section filtering

variable {F D P : Type}

theorem object_update (s : internals_t F D P) (coll : Nat) (old obj : Collection F D P)
    (h : s.object coll = some old) : (s.update coll obj).object coll = some obj := by
  have hlt : coll < s.heap.length := by
    rcases List.getElem?_eq_some.1 h with ⟨h1, _⟩
    exact h1
  simp [internals_t.object, internals_t.update, List.getElem?_set, hlt]

/-- C3: for a deposit record (mapping or vector) whose name is a key of the registry,
stored there with a tracker-hit or calorimeter-hit collection that the record's data
type matches, and for every predicate, `execute` returns normally and the target
collection then holds the entries it held, followed by the images of the candidates the
predicate holds on, in the candidates' order; it has grown by the number of candidates
the predicate holds on. -/
theorem execute_appends_selected [Zero F] [Mul F] (proc : DigiEdm4hepOutputProcessor F)
    (work : work_t D P) (predicate : predicate_t D) (s : internals_t F D P)
    (name : String) (dt : data_type_t) (data : List (CellID × D)) (coll : Nat)
    (target : Collection F D P)
    (hwork : work.as_deposits = some (name, dt, data))
    (hname : map_find name s.m_collections = some coll)
    (hobj : s.object coll = some target) :
    (∀ es : List (TrackerHit F D),
      dt = .TRACKER_HITS → target = .TrackerHitCollection es →
      ∃ (s' : internals_t F D P) (added : List (TrackerHit F D)),
        proc.execute work predicate s = .ok s' ∧
        s' = s.update coll (.TrackerHitCollection (es ++ added)) ∧
        s'.object coll = some (.TrackerHitCollection (es ++ added)) ∧
        added = (data.filter predicate).map
          (fun depo =>
            { source := depo, covMatrix := proc.covMat, type := proc.m_hit_type }) ∧
        added.map (fun hit => hit.source) = data.filter predicate ∧
        (Collection.TrackerHitCollection (es ++ added) : Collection F D P).size =
          target.size + data.countP predicate) ∧
    (∀ es : List (CalorimeterHit D),
      dt = .CALORIMETER_HITS → target = .CalorimeterHitCollection es →
      ∃ (s' : internals_t F D P) (added : List (CalorimeterHit D)),
        proc.execute work predicate s = .ok s' ∧
        s' = s.update coll (.CalorimeterHitCollection (es ++ added)) ∧
        s'.object coll = some (.CalorimeterHitCollection (es ++ added)) ∧
        added = (data.filter predicate).map
          (fun depo => { source := depo, type := proc.m_hit_type }) ∧
        added.map (fun hit => hit.source) = data.filter predicate ∧
        (Collection.CalorimeterHitCollection (es ++ added) : Collection F D P).size =
          target.size + data.countP predicate) := by
  rw [execute_as_deposits proc work predicate s name dt data hwork]
  constructor
  · intro es hdt htarget
    subst hdt htarget
    refine ⟨_, _, convert_deposits_tracker proc name data predicate s coll es hname hobj,
      rfl, object_update s coll _ _ hobj, rfl, ?_, ?_⟩
    · simp [List.map_map, Function.comp_def]
    · simp [Collection.size, List.countP_eq_length_filter]
  · intro es hdt htarget
    subst hdt htarget
    refine ⟨_, _, convert_deposits_calorimeter proc name data predicate s coll es hname hobj,
      rfl, object_update s coll _ _ hobj, rfl, ?_, ?_⟩
    · simp [List.map_map, Function.comp_def]
    · simp [Collection.size, List.countP_eq_length_filter]

/-- C9: for all configured resolutions, a deposit conversion into a tracker-hit
collection returns normally and every tracker hit it appends carries the covariance
`[0, 0, resRPhi * resRPhi, 0, 0, resZ * resZ]`, whatever the deposit it was made from;
in particular the covariance is `[0, 0, a, 0, 0, b]` whenever `resRPhi * resRPhi = a`
and `resZ * resZ = b`, as for resolutions 2 and 5 with `a = 4` and `b = 25`. -/
theorem tracker_hit_covariance [Zero F] [Mul F] (proc : DigiEdm4hepOutputProcessor F)
    (work : work_t D P) (predicate : predicate_t D) (s : internals_t F D P)
    (name : String) (data : List (CellID × D)) (coll : Nat) (es : List (TrackerHit F D))
    (hwork : work.as_deposits = some (name, .TRACKER_HITS, data))
    (hname : map_find name s.m_collections = some coll)
    (hobj : s.object coll = some (.TrackerHitCollection es)) :
    ∃ added : List (TrackerHit F D),
      proc.execute work predicate s =
        .ok (s.update coll (.TrackerHitCollection (es ++ added))) ∧
      added.map (fun hit => hit.source) = data.filter predicate ∧
      (∀ hit ∈ added, hit.covMatrix =
        [0, 0, proc.m_pointResoutionRPhi * proc.m_pointResoutionRPhi,
         0, 0, proc.m_pointResoutionZ * proc.m_pointResoutionZ]) ∧
      (∀ a b : F, proc.m_pointResoutionRPhi * proc.m_pointResoutionRPhi = a →
        proc.m_pointResoutionZ * proc.m_pointResoutionZ = b →
        ∀ hit ∈ added, hit.covMatrix = [0, 0, a, 0, 0, b]) := by
  rw [execute_as_deposits proc work predicate s name _ data hwork]
  refine ⟨_, convert_deposits_tracker proc name data predicate s coll es hname hobj,
    ?_, ?_, ?_⟩
  · simp [List.map_map, Function.comp_def]
  · intro hit hhit
    obtain ⟨depo, _, rfl⟩ := List.mem_map.1 hhit
    rfl
  · intro a b ha hb hit hhit
    obtain ⟨depo, _, rfl⟩ := List.mem_map.1 hhit
    subst ha hb
    rfl

end filtering

/-! ## Creation of the collections and file rotation -/

section rotation

variable {F D P : Type}

theorem create_container_header (s : internals_t F D P) (cont : String × String) :
    (s.create_container cont).m_header = s.m_header := by
  unfold internals_t.create_container
  by_cases h1 : cont.2 = "MCParticles"
  · simp [h1, internals_t.register_collection, internals_t.alloc]
  · by_cases h2 : cont.2 = "TrackerHits"
    · simp [h2, internals_t.register_collection, internals_t.alloc]
    · by_cases h3 : cont.2 = "CalorimeterHits"
      · simp [h3, internals_t.register_collection, internals_t.alloc]
      · simp [h1, h2, h3]

theorem foldl_create_container_header (containers : List (String × String)) :
    ∀ s : internals_t F D P,
      (containers.foldl internals_t.create_container s).m_header = s.m_header := by
  induction containers with
  | nil => intro s; rfl
  | cons cont rest ih =>
    intro s
    rw [List.foldl_cons, ih, create_container_header]

theorem create_collections_header (parent : DigiEdm4hepOutput) (s : internals_t F D P) :
    (s.create_collections parent).m_header.isSome = true := by
  cases hh : s.m_header with
  | some p =>
    have hs : s.m_header.isSome = true := by simp [hh]
    rw [create_collections_of_header parent s hs]
    exact hs
  | none =>
    unfold internals_t.create_collections
    simp only [hh]
    rw [foldl_create_container_header]
    rfl

/-- C5: `create_collections` is idempotent.  After a first call, made in any state, and
any calls of the output stage after it (stream operations, conversions), a second call
with the same container list changes nothing at all; the registry then maps the same
names to the same pointers as the first call left, with the same header and particles
pointers, and no collection object has been allocated since. -/
theorem create_collections_idempotent [Zero F] [Mul F] (parent : DigiEdm4hepOutput)
    (s : internals_t F D P) (calls : List (Call F D P)) :
    (s.create_collections parent).create_collections parent = s.create_collections parent ∧
      (run parent calls (s.create_collections parent)).create_collections parent =
        run parent calls (s.create_collections parent) ∧
      ((run parent calls (s.create_collections parent)).create_collections
          parent).m_collections = (s.create_collections parent).m_collections ∧
      ((run parent calls (s.create_collections parent)).create_collections
          parent).m_header = (s.create_collections parent).m_header ∧
      ((run parent calls (s.create_collections parent)).create_collections
          parent).m_particles = (s.create_collections parent).m_particles ∧
      ((run parent calls (s.create_collections parent)).create_collections
          parent).heap.length = (s.create_collections parent).heap.length := by
  have h1 := create_collections_header parent s
  obtain ⟨k1, k2, k3, _, k5⟩ := registry_run parent calls (s.create_collections parent) h1
  have h2 : (run parent calls (s.create_collections parent)).m_header.isSome = true := by
    rw [k2]; exact h1
  rw [create_collections_of_header parent _ h2]
  exact ⟨create_collections_of_header parent _ h1, rfl, k1, k2, k3, k5⟩

theorem run_append [Zero F] [Mul F] (parent : DigiEdm4hepOutput) (l1 l2 : List (Call F D P))
    (s : internals_t F D P) : run parent (l1 ++ l2) s = run parent l2 (run parent l1 s) := by
  simp [run, List.foldl_append]

/-- C6, as the code has it: from every state the initialized output stage can reach,
the sequence `open(fileA)`, `commit`, `commit`, `close`, `open(fileB)`, with any
conversions between the steps, has both commits return normally and ends with the
registry mapping the same names to the same pointers as at `open(fileA)`, no object
allocated in between, every pointer of the registry still referring to an object, and
the names registered for writing into `fileB` being those registered for `fileA`, the
names of the registry.  Right after the second commit every collection of the registry
is empty, and it is empty after `open(fileB)` when no conversion runs after the second
commit. -/
theorem rotation_keeps_collections [Zero F] [Mul F] (parent : DigiEdm4hepOutput)
    (s0 : internals_t F D P) (h0 : Reachable parent s0) (fileA fileB : String)
    (a1 a2 a3 a4 : List (DigiEdm4hepOutputProcessor F × work_t D P × predicate_t D)) :
    ∃ (sA s1 s2 s3 s4 s5 sB : internals_t F D P) (wA wB : ROOTWriter F D P),
      sA = internals_t.open fileA s0 ∧
      s1 = run parent (executes a1) sA ∧
      s1.commit = .ok s2 ∧
      s3 = run parent (executes a2) s2 ∧
      s3.commit = .ok s4 ∧
      s5 = run parent (executes a4) (run parent (executes a3) s4).close ∧
      sB = internals_t.open fileB s5 ∧
      sB.m_collections = sA.m_collections ∧
      sB.heap.length = sA.heap.length ∧
      (∀ np ∈ sB.m_collections, ∃ obj, sB.object np.2 = some obj) ∧
      sA.m_file = some wA ∧ sB.m_file = some wB ∧
      wB.collectionsToWrite = wA.collectionsToWrite ∧
      wB.collectionsToWrite = sB.names ∧
      (∀ np ∈ s4.m_collections, ∃ obj, s4.object np.2 = some obj ∧ obj.size = 0) ∧
      (a3 = [] → a4 = [] →
        ∀ np ∈ sB.m_collections, ∃ obj, sB.object np.2 = some obj ∧ obj.size = 0) := by
  have inv0 := h0.inv
  have invA : Inv (internals_t.open fileA s0) := inv0.open fileA
  have fA : (internals_t.open fileA s0).m_file =
      some { filename := fileA, collectionsToWrite := s0.names, events := [],
             finished := false } := by
    rw [open_eq]
  have inv1 := Inv.run parent (executes a1) _ invA
  have f1 := ((executes_file parent a1 (internals_t.open fileA s0)).1).trans fA
  obtain ⟨c1, c1f, _, _⟩ := commit_ok _ _ f1
  have inv2 := inv1.commit
  have inv3 := Inv.run parent (executes a2) _ inv2
  have f3 := ((executes_file parent a2 _).1).trans c1f
  obtain ⟨c3, c3f, c3h, c3s⟩ := commit_ok _ _ f3
  have inv4 := inv3.commit
  have inv5 : Inv (run parent (executes a4)
      (run parent (executes a3)
        (run parent (executes a2)
          (run parent (executes a1) (internals_t.open fileA s0)).commit.state).commit.state).close) :=
    Inv.run parent (executes a4) _ (Inv.run parent (executes a3) _ inv4).close
  have invB := inv5.open fileB
  -- the whole sequence as one run from `s0`
  have whole : internals_t.open fileB (run parent (executes a4)
      (run parent (executes a3)
        (run parent (executes a2)
          (run parent (executes a1) (internals_t.open fileA s0)).commit.state).commit.state).close) =
      run parent ([Call.open_output fileA] ++ executes a1 ++ [Call.commit_output] ++
        executes a2 ++ [Call.commit_output] ++ executes a3 ++ [Call.close_output] ++
        executes a4 ++ [Call.open_output fileB]) s0 := by
    simp only [run_append]
    rfl
  obtain ⟨r1, _, _, _, r5⟩ := registry_run parent
    ([Call.open_output fileA] ++ executes a1 ++ [Call.commit_output] ++
      executes a2 ++ [Call.commit_output] ++ executes a3 ++ [Call.close_output] ++
      executes a4 ++ [Call.open_output fileB]) s0 inv0.header
  rw [← whole] at r1 r5
  have regA : (internals_t.open fileA s0).m_collections = s0.m_collections ∧
      (internals_t.open fileA s0).heap.length = s0.heap.length := by
    rw [open_eq]
    exact ⟨rfl, rfl⟩
  have namesB : (internals_t.open fileB (run parent (executes a4)
      (run parent (executes a3)
        (run parent (executes a2)
          (run parent (executes a1) (internals_t.open fileA s0)).commit.state).commit.state).close)).names =
      s0.names := by
    simp only [internals_t.names, r1]
  have cleared := commit_clears inv3
  have reg3 : (run parent (executes a2)
      (run parent (executes a1) (internals_t.open fileA s0)).commit.state).commit.state.m_collections =
      (run parent (executes a2)
        (run parent (executes a1) (internals_t.open fileA s0)).commit.state).m_collections :=
    (registry_apply parent _ inv3.header Call.commit_output).1
  have empty4 : ∀ np ∈ (run parent (executes a2)
      (run parent (executes a1) (internals_t.open fileA s0)).commit.state).commit.state.m_collections,
      ∃ obj, (run parent (executes a2)
        (run parent (executes a1) (internals_t.open fileA s0)).commit.state).commit.state.object np.2 =
          some obj ∧ obj.size = 0 := by
    intro np hnp
    rw [reg3] at hnp
    obtain ⟨obj, _, h2⟩ := cleared np hnp
    refine ⟨obj.clear, ?_, Collection.size_clear _⟩
    simp only [internals_t.object, c3h]
    exact h2
  obtain ⟨wB, hB1, hB2⟩ : ∃ wB : ROOTWriter F D P,
      (internals_t.open fileB (run parent (executes a4)
        (run parent (executes a3)
          (run parent (executes a2)
            (run parent (executes a1)
              (internals_t.open fileA s0)).commit.state).commit.state).close)).m_file =
        some wB ∧
      wB.collectionsToWrite = (internals_t.open fileB (run parent (executes a4)
        (run parent (executes a3)
          (run parent (executes a2)
            (run parent (executes a1)
              (internals_t.open fileA s0)).commit.state).commit.state).close)).names := by
    rw [open_eq]
    exact ⟨_, rfl, rfl⟩
  refine ⟨_, _, _, _, _, _, _, _, wB, rfl, rfl, c1, rfl, c3, rfl, rfl, ?_, ?_, ?_, fA, hB1,
    ?_, hB2, empty4, ?_⟩
  · rw [r1, regA.1]
  · rw [r5, regA.2]
  · intro np hnp
    have hv := invB.registered.valid np hnp
    exact ⟨_, by simp only [internals_t.object]; exact List.getElem?_eq_getElem hv⟩
  · rw [hB2, namesB]
  · intro h3 h4
    subst h3 h4
    intro np hnp
    have e : internals_t.open fileB (run parent (executes ([] : List
        (DigiEdm4hepOutputProcessor F × work_t D P × predicate_t D)))
        (run parent (executes ([] : List
          (DigiEdm4hepOutputProcessor F × work_t D P × predicate_t D)))
          (run parent (executes a2)
            (run parent (executes a1)
              (internals_t.open fileA s0)).commit.state).commit.state).close) =
        internals_t.open fileB (run parent (executes a2)
            (run parent (executes a1)
              (internals_t.open fileA s0)).commit.state).commit.state.close := rfl
    rw [e] at hnp ⊢
    rw [open_eq, close_eq] at hnp ⊢
    exact empty4 np hnp

end rotation

/-! ## Concrete checks -/

section checks

/-- C1 at a stream that was opened and closed again: `commit` throws and the state is
as before. -/
theorem commit_on_closed_stream_witness :
    DigiEdm4hepOutput.have_output (internals_t.open "a.root" demo_state).close = false ∧
      (internals_t.open "a.root" demo_state).close.commit =
        .raised .stream_not_open (internals_t.open "a.root" demo_state).close :=
  ⟨by decide, (commit_on_closed_stream _ (by decide)).1⟩

/-- C2 at `demo_open_state`: the commit returns normally with one event record, and the
tracker collection, which held two hits, is empty afterwards. -/
theorem commit_writes_then_clears_witness :
    Reachable demo_parent demo_open_state ∧
      (∃ obj, demo_open_state.object 1 = some obj ∧ obj.size = 2) ∧
      ∃ (s' : internals_t Int Nat Nat) (record : List (String × Collection Int Nat Nat)),
        demo_open_state.commit = .ok s' ∧
        s'.m_file = some
          { filename := "a.root", collectionsToWrite := ["Ecal", "EventHeader", "MC", "SiHits"],
            events := [] ++ [record], finished := false } ∧
        (∀ np ∈ s'.m_collections, ∃ obj, s'.object np.2 = some obj ∧ obj.size = 0) := by
  have reach : Reachable demo_parent demo_open_state := ⟨_, rfl⟩
  refine ⟨reach,
    ⟨.TrackerHitCollection
      [{ source := (1, 10), covMatrix := [0, 0, 4, 0, 0, 25], type := 7 },
       { source := (3, 30), covMatrix := [0, 0, 4, 0, 0, 25], type := 7 }],
      by decide, by decide⟩, ?_⟩
  obtain ⟨s', record, h1, h2, _, h4, _⟩ :=
    commit_writes_then_clears demo_parent demo_open_state
      { filename := "a.root", collectionsToWrite := ["Ecal", "EventHeader", "MC", "SiHits"],
        events := [], finished := false } reach (by decide)
  refine ⟨s', record, h1, h2, ?_⟩
  intro np hnp
  obtain ⟨obj, _, k2, k3⟩ := h4 np hnp
  exact ⟨obj.clear, k2, k3⟩

/-- C3 at `demo_deposits`: of three candidates the predicate holds on two, and the empty
tracker collection `SiHits` holds their two images, in order, afterwards. -/
theorem execute_appends_selected_witness :
    map_find "SiHits" demo_state.m_collections = some 1 ∧
      demo_state.object 1 = some (.TrackerHitCollection []) ∧
      ∃ (s' : internals_t Int Nat Nat) (added : List (TrackerHit Int Nat)),
        demo_proc.execute (.deposit_vector demo_deposits) demo_predicate demo_state = .ok s' ∧
        s'.object 1 = some (.TrackerHitCollection ([] ++ added)) ∧
        added.map (fun hit => hit.source) = [(1, 10), (3, 30)] := by
  refine ⟨by decide, by decide, ?_⟩
  obtain ⟨s', added, h1, _, h3, _, h5, _⟩ :=
    (execute_appends_selected demo_proc (.deposit_vector demo_deposits) demo_predicate
      demo_state "SiHits" .TRACKER_HITS demo_deposits.data 1 (.TrackerHitCollection [])
      rfl (by decide) (by decide)).1 [] rfl rfl
  exact ⟨s', added, h1, h3, h5.trans (by decide)⟩

/-- C4 at a record named `Muon`, which `demo_parent` does not configure. -/
theorem execute_unknown_name_witness :
    map_find "Muon" demo_state.m_collections = none ∧
      demo_proc.execute
          (.deposit_mapping
            { name := "Muon", key := 0, data_type := .TRACKER_HITS, data := [(1, 10)] })
          demo_predicate demo_state =
        .raised .collection_not_found demo_state :=
  ⟨by decide,
    (execute_unknown_name demo_proc
      (.deposit_mapping
        { name := "Muon", key := 0, data_type := .TRACKER_HITS, data := [(1, 10)] })
      demo_predicate demo_state "Muon" .TRACKER_HITS [(1, 10)] rfl (by decide)).1⟩

/-- C6 as stated fails: with one conversion between the second commit and `close`, the
tracker collection `SiHits` of the registry holds two hits after `open(fileB)`, although
both commits returned normally. -/
theorem rotation_not_empty_after_late_append :
    (internals_t.open "a.root" demo_state).commit =
        .ok (internals_t.open "a.root" demo_state).commit.state ∧
      (internals_t.open "a.root" demo_state).commit.state.commit =
        .ok (internals_t.open "a.root" demo_state).commit.state.commit.state ∧
      ("SiHits", 1) ∈
        (internals_t.open "b.root"
          (run demo_parent
            (executes [(demo_proc, work_t.deposit_vector demo_deposits, demo_predicate)])
            (internals_t.open "a.root" demo_state).commit.state.commit.state).close).m_collections ∧
      ¬ (∀ np ∈
          (internals_t.open "b.root"
            (run demo_parent
              (executes [(demo_proc, work_t.deposit_vector demo_deposits, demo_predicate)])
              (internals_t.open "a.root" demo_state).commit.state.commit.state).close).m_collections,
          ∃ obj,
            (internals_t.open "b.root"
              (run demo_parent
                (executes [(demo_proc, work_t.deposit_vector demo_deposits, demo_predicate)])
                (internals_t.open "a.root" demo_state).commit.state.commit.state).close).object
              np.2 = some obj ∧ obj.size = 0) := by
  refine ⟨by decide, by decide, by decide, ?_⟩
  intro h
  obtain ⟨obj, h1, h2⟩ := h ("SiHits", 1) (by decide)
  have e : (internals_t.open "b.root"
      (run demo_parent
        (executes [(demo_proc, work_t.deposit_vector demo_deposits, demo_predicate)])
        (internals_t.open "a.root" demo_state).commit.state.commit.state).close).object 1 =
      some (.TrackerHitCollection
        [{ source := (1, 10), covMatrix := [0, 0, 4, 0, 0, 25], type := 7 },
         { source := (3, 30), covMatrix := [0, 0, 4, 0, 0, 25], type := 7 }]) := by
    decide
  rw [e] at h1
  cases h1
  simp [Collection.size] at h2

/-- C6, amended, at `demo_state` with one conversion before each commit and none after
the second: every collection of the registry is empty after `open(fileB)`. -/
theorem rotation_keeps_collections_witness :
    Reachable demo_parent demo_state ∧
      ∃ (sA sB : internals_t Int Nat Nat),
        sA = internals_t.open "a.root" demo_state ∧
        sB.m_collections = sA.m_collections ∧
        sB.heap.length = sA.heap.length ∧
        (∀ np ∈ sB.m_collections, ∃ obj, sB.object np.2 = some obj ∧ obj.size = 0) := by
  have reach : Reachable demo_parent demo_state := ⟨[], rfl⟩
  refine ⟨reach, ?_⟩
  obtain ⟨sA, s1, s2, s3, s4, s5, sB, wA, wB, hA, _, _, _, _, _, _, h8, h9, _, _, _, _, _, _, h16⟩ :=
    rotation_keeps_collections demo_parent demo_state reach "a.root" "b.root"
      [(demo_proc, work_t.deposit_vector demo_deposits, demo_predicate)]
      [(demo_proc, work_t.deposit_vector demo_deposits, demo_predicate)] [] []
  exact ⟨sA, sB, hA, h8, h9, h16 rfl rfl⟩

/-- C7 as stated fails: an empty deposit vector named `SiHits` with an unknown data type
makes `execute` return normally, with the state unchanged; no exception is thrown. -/
theorem empty_record_of_unknown_type_returns :
    map_find "SiHits" demo_state.m_collections = some 1 ∧
      demo_proc.execute
          (.deposit_vector { name := "SiHits", key := 0, data_type := .other 0, data := [] })
          demo_predicate demo_state = .ok demo_state ∧
      ¬ ∃ st, demo_proc.execute
          (.deposit_vector { name := "SiHits", key := 0, data_type := .other 0, data := [] })
          demo_predicate demo_state = .raised (.unknown_deposit_type 0) st := by
  refine ⟨by decide, by decide, ?_⟩
  rintro ⟨st, h⟩
  have e : demo_proc.execute
      (.deposit_vector { name := "SiHits", key := 0, data_type := .other 0, data := [] })
      demo_predicate demo_state = .ok demo_state := by decide
  rw [e] at h
  cases h

/-- C7, amended, at a deposit vector named `SiHits` with one entry and an unknown data
type: the exception is thrown. -/
theorem execute_unknown_deposit_type_witness :
    map_find "SiHits" demo_state.m_collections = some 1 ∧
      demo_proc.execute
          (.deposit_vector
            { name := "SiHits", key := 0, data_type := .other 0, data := [(1, 10)] })
          demo_predicate demo_state =
        .raised (.unknown_deposit_type 0) demo_state :=
  ⟨by decide,
    (execute_unknown_deposit_type demo_proc
      (.deposit_vector
        { name := "SiHits", key := 0, data_type := .other 0, data := [(1, 10)] })
      demo_predicate demo_state "SiHits" 0 [(1, 10)] 1 rfl (by decide)).1 (by decide)⟩

/-- C8: with a configuration that declares no particle container, `m_particles` is
null after `initialize()` and the registry has no particle collection; `execute` on a
particle mapping then calls through the null pointer.  No exception of `get_collection`
is thrown, unlike for a deposit record of an unknown name on the same state. -/
theorem convert_particles_without_target :
    demo_state_hits_only.m_particles = none ∧
      demo_state_hits_only.m_collections = [("EventHeader", 0), ("SiHits", 1)] ∧
      demo_proc.execute
          (.particle_mapping { name := "MC", key := 0, data := [(1, 11)] })
          demo_predicate demo_state_hits_only =
        .raised .null_dereference demo_state_hits_only ∧
      demo_proc.execute
          (.particle_mapping { name := "MC", key := 0, data := [(1, 11)] })
          demo_predicate demo_state_hits_only ≠
        .raised .collection_not_found demo_state_hits_only ∧
      demo_proc.execute
          (.deposit_vector
            { name := "MC", key := 0, data_type := .TRACKER_HITS, data := [(1, 11)] })
          demo_predicate demo_state_hits_only =
        .raised .collection_not_found demo_state_hits_only := by
  refine ⟨by decide, by decide, by decide, by decide, by decide⟩

/-- C9 at resolutions 2 and 5: every hit appended carries `[0, 0, 4, 0, 0, 25]`. -/
theorem tracker_hit_covariance_witness :
    map_find "SiHits" demo_state.m_collections = some 1 ∧
      demo_state.object 1 = some (.TrackerHitCollection []) ∧
      ∃ added : List (TrackerHit Int Nat),
        demo_proc.execute (.deposit_vector demo_deposits) demo_predicate demo_state =
          .ok (demo_state.update 1 (.TrackerHitCollection ([] ++ added))) ∧
        added.map (fun hit => hit.source) = [(1, 10), (3, 30)] ∧
        ∀ hit ∈ added, hit.covMatrix = [0, 0, 4, 0, 0, 25] := by
  refine ⟨by decide, by decide, ?_⟩
  obtain ⟨added, h1, h2, _, h4⟩ :=
    tracker_hit_covariance demo_proc (.deposit_vector demo_deposits) demo_predicate
      demo_state "SiHits" demo_deposits.data 1 [] rfl (by decide) (by decide)
  exact ⟨added, h1, h2.trans (by decide), h4 4 25 (by decide) (by decide)⟩

/-- C5 at `demo_parent`: a second `create_collections`, after a stream was opened and
hits were converted, changes nothing. -/
theorem create_collections_idempotent_witness :
    demo_open_state.create_collections demo_parent = demo_open_state ∧
      demo_open_state.m_collections =
        [("Ecal", 3), ("EventHeader", 0), ("MC", 2), ("SiHits", 1)] := by
  refine ⟨?_, by decide⟩
  exact (create_collections_idempotent demo_parent (internals_t.create : internals_t Int Nat Nat)
    [Call.open_output "a.root",
     Call.execute demo_proc (work_t.deposit_vector demo_deposits) demo_predicate]).2.1

/-- C10 at an open stream: the previous writer is released, finalized, and the new one
has the names of the registry registered. -/
theorem open_registers_registry_witness :
    (internals_t.open "b.root" demo_open_state).m_file =
        some { filename := "b.root", collectionsToWrite := demo_open_state.names,
               events := [], finished := false } ∧
      (internals_t.open "b.root" demo_open_state).released =
        [{ filename := "a.root", collectionsToWrite := ["Ecal", "EventHeader", "MC", "SiHits"],
           events := [], finished := true }] := by
  obtain ⟨_, h2, _, h4, _⟩ := open_registers_registry "b.root" demo_open_state
  refine ⟨h2, ?_⟩
  exact (h4 { filename := "a.root",
              collectionsToWrite := ["Ecal", "EventHeader", "MC", "SiHits"],
              events := [], finished := false } (by decide)).1.trans (by decide)

end checks

end dd4hep.digi
